import Mathlib

/-!
# Verification of the media-platform analytics core (src/app/main.py)

Shallow embedding of the rate limiter, event store, aggregation engine,
cache layer and their orchestration in `log_view` / `get_analytics`.

Modelling conventions:
* Instants are natural numbers of seconds since the Unix epoch (the Python
  code uses `datetime.utcnow()`; all claims and counterexamples are at
  whole-second granularity, where Python's `timedelta` comparison semantics
  coincide with the `Nat` arithmetic used here).
* Python's `timedelta.seconds` attribute is the seconds component of the
  normalised `(days, seconds, microseconds)` triple, i.e. for `ts ≤ now` it
  equals the elapsed whole seconds modulo 86400.  This is embedded exactly
  (`pyTdSeconds`), because the source compares `(now - ts).seconds < WINDOW`.
* `defaultdict(list)` lookups are modelled as total functions returning `[]`
  for unknown keys; the incidental insertion of an empty entry on a bare
  read is observationally invisible and is not modelled.
* The Redis cache is external to the repository; it is modelled from the
  spec's CacheLayer contract (see `redisGet`, `redisSetex`, `redisDelete`).
-/

/-- `RATE_LIMIT = 5` from the source ("5 requests"). -/
def RATE_LIMIT : Nat := 5

/-- `WINDOW = 60` from the source ("per 60 seconds"). -/
def WINDOW : Nat := 60

/-- Python's `(now - ts).seconds` for `ts ≤ now` at whole-second granularity:
`timedelta` normalises to days plus a seconds component in `[0, 86400)`, so
the attribute is the elapsed seconds modulo 86400 (the days are dropped). -/
def pyTdSeconds (now ts : Nat) : Nat := (now - ts) % 86400

/-- The pruning step of `rate_limit` in the source:
`[ts for ts in timestamps if (now - ts).seconds < WINDOW]`. -/
def prune (now : Nat) (timestamps : List Nat) : List Nat :=
  timestamps.filter (fun ts => decide (pyTdSeconds now ts < WINDOW))

/-- `rate_limit(ip)` from the source, acting on one identity's window:
prune, then reject (`False`, raising 429 in the source) iff the pruned
window already holds `RATE_LIMIT` or more timestamps, else append `now`.
Returns (admitted?, the identity's new window). -/
def rate_limit (now : Nat) (timestamps : List Nat) : Bool × List Nat :=
  let kept := prune now timestamps
  if RATE_LIMIT ≤ kept.length then (false, kept)
  else (true, kept ++ [now])

example : prune 70 [5, 20, 65] = [20, 65] := by decide
example : rate_limit 70 [20, 30, 40, 50, 65] = (false, [20, 30, 40, 50, 65]) := by
  decide
example : rate_limit 70 [20, 65] = (true, [20, 65, 70]) := by decide

/-! ## Characters and decimal rendering

Python renders the analytics dictionary with `str`, which writes string keys
between single quotes and integers in decimal.  The quote and the braces are
built from their code points so they can be spelled inside `List Char`
literals uniformly. -/

/-- The single-quote character `'` (code point 39) used by Python `repr`. -/
def quoteC : Char := Char.ofNat 39

/-- The opening-brace character (code point 123) of a Python dict literal. -/
def lbraceC : Char := Char.ofNat 123

/-- The closing-brace character (code point 125) of a Python dict literal. -/
def rbraceC : Char := Char.ofNat 125

/-- The decimal digit character for `d < 10` (code points 48–57). -/
def digitChar (d : Nat) : Char := Char.ofNat (48 + d)

/-- Is `c` one of the characters `0`–`9`? -/
def isDigitC (c : Char) : Bool := 48 ≤ c.toNat && c.toNat ≤ 57

/-- The numeric value of a digit character. -/
def charVal (c : Char) : Nat := c.toNat - 48

/-- Big-endian decimal digits of `n ≠ 0`; the fuel only bounds recursion and
`natReprAux (n+1) n` always suffices. -/
def natReprAux : Nat → Nat → List Char
  | 0, _ => []
  | fuel + 1, n => if n = 0 then [] else natReprAux fuel (n / 10) ++ [digitChar (n % 10)]

/-- Python's decimal rendering `str(n)` of a non-negative integer. -/
def natRepr (n : Nat) : List Char :=
  if n = 0 then [digitChar 0] else natReprAux (n + 1) n

/-- `natRepr` as a `String`. -/
def natReprStr (n : Nat) : String := String.mk (natRepr n)

/-- The numeric value of a big-endian digit string, as `int` parsing and the
positional reading of a decimal literal give it. -/
def valBE (l : List Char) : Nat := l.foldl (fun a c => a * 10 + charVal c) 0

/-! ## UTC calendar dates

`datetime.utcnow()` carries a proleptic-Gregorian UTC date;
`v["time"].date().isoformat()` extracts it as a `YYYY-MM-DD` string.  The
conversion from days-since-epoch to the civil date is the standard Gregorian
calendar computation, done in `Nat` (all intermediate subtractions are
non-negative for `z0 ≥ 0`). -/

/-- (year, month, day) of the proleptic-Gregorian civil date `z0` days after
1970-01-01. -/
def civilFromDays (z0 : Nat) : Nat × Nat × Nat :=
  let z := z0 + 719468
  let era := z / 146097
  let doe := z % 146097
  let yoe := (doe - doe / 1460 + doe / 36524 - doe / 146096) / 365
  let y := yoe + era * 400
  let doy := doe - (365 * yoe + yoe / 4 - yoe / 100)
  let mp := (5 * doy + 2) / 153
  let d := doy - (153 * mp + 2) / 5 + 1
  let m := if mp < 10 then mp + 3 else mp - 9
  (if m ≤ 2 then y + 1 else y, m, d)

/-- Zero-pad a digit string on the left to width `w` (`%02d` / `%04d`). -/
def padLeft (l : List Char) (w : Nat) : List Char :=
  List.replicate (w - l.length) (digitChar 0) ++ l

/-- `datetime.date().isoformat()` of an epoch-seconds instant: the UTC
calendar date as an ISO `YYYY-MM-DD` string. -/
def dateIso (t : Nat) : String :=
  match civilFromDays (t / 86400) with
  | (y, m, d) =>
    String.mk (padLeft (natRepr y) 4 ++ '-' :: padLeft (natRepr m) 2
      ++ '-' :: padLeft (natRepr d) 2)

example : dateIso 0 = "1970-01-01" := by decide
example : dateIso 1760227200 = "2025-10-12" := by decide

/-! ## The event store and the aggregation engine -/

/-- One view event as `log_view` records it: `{"ip": ip, "time": now}`. -/
structure ViewEvent where
  ip : String
  time : Nat
deriving DecidableEq, Repr

/-- The analytics dictionary `get_analytics` builds on a cache miss:
`{"total_views": …, "unique_ips": …, "views_per_day": …}`.  `views_per_day`
is an insertion-ordered association list, as a Python dict is. -/
structure Summary where
  total_views : Nat
  unique_ips : Nat
  views_per_day : List (String × Nat)
deriving DecidableEq, Repr

/-- `views_per_day[k] += 1` on an insertion-ordered dict: bump the existing
entry or append a new one at the end. -/
def bump (m : List (String × Nat)) (k : String) : List (String × Nat) :=
  match m with
  | [] => [(k, 1)]
  | (k', v) :: rest => if k' = k then (k', v + 1) :: rest else (k', v) :: bump rest k

/-- Ordered-dict lookup. -/
def lookupAssoc (m : List (String × Nat)) (k : String) : Option Nat :=
  match m with
  | [] => none
  | (k', v) :: rest => if k' = k then some v else lookupAssoc rest k

/-- The `views_per_day` loop of `get_analytics`: a `defaultdict(int)` filled
by one `+= 1` per event, keyed by the event's ISO date. -/
def viewsPerDayOf (views : List ViewEvent) : List (String × Nat) :=
  views.foldl (fun m v => bump m (dateIso v.time)) []

/-- The aggregation in `get_analytics`'s cache-miss branch:
`total_views = len(views)`, `unique_ips = len(set(v["ip"] for v in views))`,
and the `views_per_day` grouping. -/
def computeSummary (views : List ViewEvent) : Summary :=
  { total_views := views.length
    unique_ips := (views.map ViewEvent.ip).dedup.length
    views_per_day := viewsPerDayOf views }

/-- The number of events of `views` whose UTC date renders as `k`. -/
def countOnDate (views : List ViewEvent) (k : String) : Nat :=
  (views.filter (fun v => dateIso v.time == k)).length

example :
    computeSummary [⟨"1.2.3.4", 10⟩, ⟨"5.6.7.8", 86500⟩, ⟨"1.2.3.4", 99⟩] =
      { total_views := 3, unique_ips := 2
        views_per_day := [("1970-01-01", 2), ("1970-01-02", 1)] } := by decide

/-! ## The cache text: Python `str(analytics)` and `eval(cached)`

The source stores the analytics dict in Redis as `str(analytics)` and decodes
a hit with `eval(cached)`.  `encodeSummaryChars` is `str` on exactly the
dictionaries the source builds (string keys between single quotes, `': '`
after a key, `', '` between items).  The decoder below models the effect of
`eval` on these dictionary literals: it parses the literal back into the
dict; on text outside this grammar it returns `none`, standing for the
uncaught exception `eval` would raise there. -/

/-- A Python `repr` string key: the key's characters between single quotes. -/
def qkeyChars (k : String) : List Char := quoteC :: k.data ++ [quoteC]

/-- One `'key': value` item of a dict literal with an integer value. -/
def encodeEntryChars (e : String × Nat) : List Char :=
  qkeyChars e.1 ++ [':', ' '] ++ natRepr e.2

/-- The remaining items of a dict literal, each preceded by `', '`. -/
def encodeSepChars : List (String × Nat) → List Char
  | [] => []
  | e :: es => ',' :: ' ' :: encodeEntryChars e ++ encodeSepChars es

/-- A full dict literal of integer-valued entries, `\x7b…\x7d`. -/
def encodeDictChars (d : List (String × Nat)) : List Char :=
  match d with
  | [] => [lbraceC, rbraceC]
  | e :: es => lbraceC :: encodeEntryChars e ++ encodeSepChars es ++ [rbraceC]

/-- `str(analytics)` for the three-field analytics dict the source builds. -/
def encodeSummaryChars (s : Summary) : List Char :=
  lbraceC :: encodeEntryChars ("total_views", s.total_views)
    ++ ',' :: ' ' :: encodeEntryChars ("unique_ips", s.unique_ips)
    ++ ',' :: ' ' :: qkeyChars "views_per_day" ++ ':' :: ' ' :: encodeDictChars s.views_per_day
    ++ [rbraceC]

/-- The cached text as a `String`, exactly as stored via `setex`. -/
def encodeSummary (s : Summary) : String := String.mk (encodeSummaryChars s)

/-- Consume the exact characters `pat` from the front of the input. -/
def expectChars : List Char → List Char → Option (List Char)
  | [], input => some input
  | _ :: _, [] => none
  | c :: cs, i :: is => if i = c then expectChars cs is else none

/-- Parse a non-empty run of decimal digits as an integer literal. -/
def parseNat (l : List Char) : Option (Nat × List Char) :=
  let ds := l.takeWhile isDigitC
  if ds.isEmpty then none
  else some (valBE ds, l.dropWhile isDigitC)

/-- Parse a single-quoted string key (the keys the source writes contain no
quote or escape, so the literal ends at the next quote). -/
def parseKey (l : List Char) : Option (String × List Char) :=
  match l with
  | [] => none
  | c :: rest =>
    if c = quoteC then
      match rest.dropWhile (fun c => !(c = quoteC)) with
      | [] => none
      | c' :: rest' =>
        if c' = quoteC then some (String.mk (rest.takeWhile (fun c => !(c = quoteC))), rest')
        else none
    else none

/-- Parse one `'key': value` item with an integer value. -/
def parseEntry (l : List Char) : Option ((String × Nat) × List Char) :=
  (parseKey l).bind fun pk =>
  (expectChars [':', ' '] pk.2).bind fun l₂ =>
  (parseNat l₂).bind fun pv =>
  some ((pk.1, pv.1), pv.2)

/-- After one parsed item: the closing brace ends the dict, `', '` precedes
the next item.  The fuel only bounds recursion; each step consumes input. -/
def parseEntriesRest (fuel : Nat) (acc : List (String × Nat)) (l : List Char) :
    Option (List (String × Nat) × List Char) :=
  match fuel with
  | 0 => none
  | fuel + 1 =>
    match l with
    | [] => none
    | c :: rest =>
      if c = rbraceC then some (acc.reverse, rest)
      else if c = ',' then
        match rest with
        | ' ' :: rest₂ =>
          (parseEntry rest₂).bind fun pe => parseEntriesRest fuel (pe.1 :: acc) pe.2
        | _ => none
      else none

/-- Parse a dict literal of integer-valued entries: the empty dict, or a
first item followed by the `', '`-separated rest. -/
def parseDict (l : List Char) : Option (List (String × Nat) × List Char) :=
  (expectChars [lbraceC] l).bind fun rest =>
  match expectChars [rbraceC] rest with
  | some rest' => some ([], rest')
  | none =>
    (parseEntry rest).bind fun pe =>
    parseEntriesRest (pe.2.length + 1) [pe.1] pe.2

/-- The effect of `eval(cached)` on the dictionary literals `str(analytics)`
produces: parse the literal back — the three integer-or-dict-valued entries
between braces, with exactly the keys the source wrote — or fail (`none`,
the uncaught-exception path) on any other text. -/
def decodeSummaryChars (l : List Char) : Option Summary :=
  (expectChars [lbraceC] l).bind fun l₀ =>
  (parseEntry l₀).bind fun p₁ =>
  if p₁.1.1 = "total_views" then
    (expectChars [',', ' '] p₁.2).bind fun l₂ =>
    (parseEntry l₂).bind fun p₂ =>
    if p₂.1.1 = "unique_ips" then
      (expectChars [',', ' '] p₂.2).bind fun l₄ =>
      (parseKey l₄).bind fun pk =>
      if pk.1 = "views_per_day" then
        (expectChars [':', ' '] pk.2).bind fun l₆ =>
        (parseDict l₆).bind fun pd =>
        (expectChars [rbraceC] pd.2).bind fun l₈ =>
        if l₈ = [] then some ⟨p₁.1.2, p₂.1.2, pd.1⟩ else none
      else none
    else none
  else none

/-- `eval` applied to a cached `String`. -/
def decodeSummary (s : String) : Option Summary := decodeSummaryChars s.data

example :
    decodeSummary (encodeSummary ⟨3, 2, [("1970-01-01", 2), ("1970-01-02", 1)]⟩) =
      some ⟨3, 2, [("1970-01-01", 2), ("1970-01-02", 1)]⟩ := by decide
example : decodeSummary (encodeSummary ⟨0, 0, []⟩) = some ⟨0, 0, []⟩ := by decide

/-! ## The shared state and the Redis-backed cache

`media_db`, `views_db` and `rate_limit_store` are the module-level
dictionaries of the source (for `media_db` only key membership is consulted
by the two endpoints embedded here).  The Redis cache itself is not code of
this repository; it is modelled from the spec: a `CacheEntry` per key with
`expiresAt = now + ttlSeconds`, where `get` treats an entry whose
`expiresAt ≤ now` as absent (lazy expiry), `put` overwrites unconditionally,
and `invalidate` removes the entry if present. -/

/-- Update one key of a total map. -/
def updFun {α β : Type} [DecidableEq α] (f : α → β) (a : α) (b : β) : α → β :=
  fun x => if x = a then b else f x

/-- Modelled from the spec: the CacheLayer's `get` on the Redis store —
an entry whose `expiresAt ≤ now` is absent. -/
def redisGet (redis : String → Option (String × Nat)) (key : String) (now : Nat) :
    Option String :=
  match redis key with
  | some (v, exp) => if now < exp then some v else none
  | none => none

/-- Modelled from the spec: the CacheLayer's `put` (`setex key ttl value`) —
overwrite with `expiresAt = now + ttlSeconds`. -/
def redisSetex (redis : String → Option (String × Nat)) (key : String) (ttl : Nat)
    (v : String) (now : Nat) : String → Option (String × Nat) :=
  updFun redis key (some (v, now + ttl))

/-- Modelled from the spec: the CacheLayer's `invalidate` (`delete key`) —
remove the entry; absent keys are a no-op. -/
def redisDelete (redis : String → Option (String × Nat)) (key : String) :
    String → Option (String × Nat) :=
  updFun redis key none

/-- The module-level mutable state of the source: media registry membership,
per-resource event log, per-identity rate window, and the Redis cache. -/
structure AppState where
  media_db : Nat → Bool
  views_db : Nat → List ViewEvent
  rate_limit_store : String → List Nat
  redis : String → Option (String × Nat)

/-- The HTTP error responses the two endpoints can produce: 404, 429, and an
uncaught exception (500), which only the `eval` decode path can raise here. -/
inductive ApiError where
  | notFound
  | tooManyRequests
  | internalError
deriving DecidableEq, Repr

instance {ε α : Type} [DecidableEq ε] [DecidableEq α] : DecidableEq (Except ε α) :=
  fun x y =>
    match x, y with
    | .ok a, .ok b =>
      if h : a = b then .isTrue (by rw [h]) else .isFalse (by intro hc; cases hc; exact h rfl)
    | .error a, .error b =>
      if h : a = b then .isTrue (by rw [h]) else .isFalse (by intro hc; cases hc; exact h rfl)
    | .ok _, .error _ => .isFalse (by intro hc; cases hc)
    | .error _, .ok _ => .isFalse (by intro hc; cases hc)

/-- `f"analytics:{media_id}"` — actually an interpolated string in the
source; its value is the literal prefix followed by the decimal id. -/
def cacheKey (mediaId : Nat) : String := String.mk ("analytics:".data ++ natRepr mediaId)

/-- `log_view` (`POST /media/{id}/view`): rate-limit the caller FIRST (the
429 is raised before the existence check), then 404 for an unknown media id,
else append the event and delete the resource's cache key. -/
def log_view (st : AppState) (mediaId : Nat) (ip : String) (now : Nat) :
    Except ApiError Unit × AppState :=
  let r := rate_limit now (st.rate_limit_store ip)
  let st₁ : AppState := { st with rate_limit_store := updFun st.rate_limit_store ip r.2 }
  if r.1 then
    if st₁.media_db mediaId then
      let newLog := st₁.views_db mediaId ++ [⟨ip, now⟩]
      let st₂ : AppState := { st₁ with views_db := updFun st₁.views_db mediaId newLog }
      (Except.ok (), { st₂ with redis := redisDelete st₂.redis (cacheKey mediaId) })
    else (Except.error ApiError.notFound, st₁)
  else (Except.error ApiError.tooManyRequests, st₁)

/-- The cache-miss branch of `get_analytics`: aggregate the resource's
events, store `str(analytics)` with a 60-second TTL, return it uncached. -/
def analyticsMiss (st : AppState) (mediaId : Nat) (now : Nat) :
    Except ApiError (Bool × Summary) × AppState :=
  let summary := computeSummary (st.views_db mediaId)
  (Except.ok (false, summary),
    { st with redis :=
        redisSetex st.redis (cacheKey mediaId) 60 (encodeSummary summary) now })

/-- `get_analytics` (`GET /media/{id}/analytics`): 404 for an unknown media
id; on a cache hit (`if cached:` — a non-empty retrieved string) return the
`eval`-decoded summary with `cached = True`; otherwise recompute, store with
`setex(key, 60, str(analytics))` and return it with `cached = False`. -/
def get_analytics (st : AppState) (mediaId : Nat) (now : Nat) :
    Except ApiError (Bool × Summary) × AppState :=
  if st.media_db mediaId then
    match redisGet st.redis (cacheKey mediaId) now with
    | some s =>
      if s = "" then analyticsMiss st mediaId now
      else
        match decodeSummary s with
        | some summary => (Except.ok (true, summary), st)
        | none => (Except.error ApiError.internalError, st)
    | none => analyticsMiss st mediaId now
  else (Except.error ApiError.notFound, st)

/-- The state with no users, media, events, rate windows or cache entries. -/
def emptyState : AppState :=
  { media_db := fun _ => false
    views_db := fun _ => []
    rate_limit_store := fun _ => []
    redis := fun _ => none }

example : (log_view emptyState 1 "1.2.3.4" 5).1 = Except.error ApiError.notFound := by
  decide
example :
    (log_view { emptyState with media_db := fun m => m = 1 } 1 "1.2.3.4" 5).1 =
      Except.ok () := by decide
example :
    (get_analytics { emptyState with media_db := fun m => m = 1 } 1 7).1 =
      Except.ok (false, ⟨0, 0, []⟩) := by decide
example :
    ((get_analytics
        (get_analytics { emptyState with media_db := fun m => m = 1 } 1 7).2 1 20).1 =
      Except.ok (true, ⟨0, 0, []⟩)) := by decide

/-- A state with no media and a full rate window for every identity. -/
def fullWindowState : AppState :=
  { emptyState with rate_limit_store := fun _ => [0, 0, 0, 0, 0] }

/-- A state with exactly one registered media resource, id 1, and nothing
else: the smallest state on which the endpoints can succeed. -/
def oneMediaState : AppState :=
  { emptyState with media_db := fun m => m == 1 }

/-- Adding `c` occurrences to an optional counter: absent keys appear only
when at least one occurrence arrives. -/
def addCount (prev : Option Nat) (c : Nat) : Option Nat :=
  match prev with
  | some v => some (v + c)
  | none => if c = 0 then none else some c

/-- Does the input NOT begin with a decimal digit?  (What `parseNat` needs
of the text following a rendered integer so that it stops there.) -/
def noLeadingDigit : List Char → Bool
  | [] => true
  | c :: _ => !isDigitC c

/-! ## Map-update lemmas -/

@[simp]
theorem updFun_same {α β : Type} [DecidableEq α] (f : α → β) (a : α) (b : β) :
    updFun f a b a = b := by
  simp [updFun]

theorem updFun_other {α β : Type} [DecidableEq α] (f : α → β) (a x : α) (b : β)
    (h : x ≠ a) : updFun f a b x = f x := by
  simp [updFun, h]

/-! ## C1 — the pruning predicate

The spec demands that pruning retain `t` iff `now - t < WINDOW`, so that a
timestamp `WINDOW` seconds old *or arbitrarily older* is always evicted.  The
source filters on `(now - ts).seconds < WINDOW`, and `timedelta.seconds`
drops whole days: a timestamp exactly one day old yields `.seconds == 0` and
is retained.  The code thereby contradicts its own comments ("keep only
recent requests", "5 requests / per 60 seconds"): below, five requests a
full day old still fill the window and get a fresh request rejected. -/

/-- C1 (code bug, evaluated at the failing input): a timestamp exactly 86400
seconds (one day) old survives pruning at `now = 86400`, and five such
timestamps cause a rejection, though the claim requires every timestamp
`WINDOW` seconds old or older to be evicted before the capacity check. -/
theorem prune_retains_day_old_timestamp :
    prune 86400 [0] = [0] ∧
    rate_limit 86400 [0, 0, 0, 0, 0] = (false, [0, 0, 0, 0, 0]) := by decide

/-! ## C4 — the capacity invariant -/

/-- C4: an admitted request leaves at most `RATE_LIMIT` retained timestamps,
and an attempt that finds `RATE_LIMIT` or more timestamps after pruning is
rejected without appending — the state is the pruned window itself. -/
theorem rate_limit_capacity (now : Nat) (ts : List Nat) :
    ((rate_limit now ts).1 = true → (rate_limit now ts).2.length ≤ RATE_LIMIT) ∧
    (RATE_LIMIT ≤ (prune now ts).length → rate_limit now ts = (false, prune now ts)) := by
  unfold rate_limit
  by_cases h : RATE_LIMIT ≤ (prune now ts).length
  · simp [h]
  · simp only [if_neg h]
    refine ⟨fun _ => ?_, fun hc => absurd hc h⟩
    simp only [List.length_append, List.length_cons, List.length_nil]
    omega

/-! ## C2 — rate limiting versus the existence check

The claim says the existence check precedes the rate-limiter call, so a view
of a nonexistent resource never yields 429 and consumes no rate budget.  In
the source `rate_limit(request.client.host)` is the FIRST statement of
`log_view`: with a full window the endpoint returns 429 before ever looking
at `media_db`, and when admitted it appends a timestamp before raising 404. -/

/-- C2 counterexample: with resource 7 absent and the caller's window full,
`log_view` returns 429 (`RateLimited`), not 404 — refuting the claim that a
call on a nonexistent resource never raises `RateLimited`. -/
theorem log_view_missing_resource_rate_limited :
    fullWindowState.media_db 7 = false ∧
    (log_view fullWindowState 7 "1.2.3.4" 10).1 =
      Except.error ApiError.tooManyRequests := by decide

/-- C2 as amended: for a nonexistent resource the rate limiter is consulted
first — a full pruned window yields 429 with the pruned window kept, and an
admitted call appends its timestamp to the window and only then yields 404. -/
theorem log_view_missing_resource_spec (st : AppState) (m : Nat) (ip : String)
    (now : Nat) (hm : st.media_db m = false) :
    (RATE_LIMIT ≤ (prune now (st.rate_limit_store ip)).length →
      (log_view st m ip now).1 = Except.error ApiError.tooManyRequests ∧
      (log_view st m ip now).2.rate_limit_store ip = prune now (st.rate_limit_store ip)) ∧
    ((prune now (st.rate_limit_store ip)).length < RATE_LIMIT →
      (log_view st m ip now).1 = Except.error ApiError.notFound ∧
      (log_view st m ip now).2.rate_limit_store ip =
        prune now (st.rate_limit_store ip) ++ [now]) := by
  constructor
  · intro h
    simp only [log_view, rate_limit, if_pos h]
    simp [hm]
  · intro h
    simp only [log_view, rate_limit, if_neg (Nat.not_le.mpr h)]
    simp [hm]

/-- Witness for the amended C2 at a concrete input: in the empty state, a
view of absent resource 7 yields 404 and leaves timestamp 10 in the window. -/
theorem log_view_missing_resource_spec_witness :
    (log_view emptyState 7 "1.2.3.4" 10).1 = Except.error ApiError.notFound ∧
    (log_view emptyState 7 "1.2.3.4" 10).2.rate_limit_store "1.2.3.4" = [10] := by
  have h := log_view_missing_resource_spec emptyState 7 "1.2.3.4" 10 (by decide)
  refine ⟨(h.2 (by decide)).1, ?_⟩
  rw [(h.2 (by decide)).2]
  decide

/-! ## The `views_per_day` grouping, characterised -/

theorem lookupAssoc_bump (m : List (String × Nat)) (k₀ k : String) :
    lookupAssoc (bump m k₀) k =
      if k = k₀ then some ((lookupAssoc m k).getD 0 + 1) else lookupAssoc m k := by
  induction m with
  | nil =>
    by_cases h : k = k₀
    · subst h; simp [bump, lookupAssoc]
    · have h' : ¬k₀ = k := fun hc => h hc.symm
      simp [bump, lookupAssoc, h, h']
  | cons e rest ih =>
    obtain ⟨k', v⟩ := e
    by_cases h1 : k' = k₀
    · subst h1
      by_cases h2 : k = k'
      · subst h2; simp [bump, lookupAssoc]
      · have h2' : ¬k' = k := fun hc => h2 hc.symm
        simp [bump, lookupAssoc, h2, h2']
    · by_cases h2 : k = k'
      · subst h2
        have hk : ¬k = k₀ := fun hc => h1 hc
        simp [bump, lookupAssoc, h1, hk]
      · have h2' : ¬k' = k := fun hc => h2 hc.symm
        simp [bump, lookupAssoc, h1, h2, h2', ih]

theorem lookupAssoc_foldl_bump (views : List ViewEvent) (m : List (String × Nat))
    (k : String) :
    lookupAssoc (views.foldl (fun m v => bump m (dateIso v.time)) m) k =
      addCount (lookupAssoc m k) (countOnDate views k) := by
  induction views generalizing m with
  | nil =>
    simp only [List.foldl_nil, countOnDate, List.filter_nil, List.length_nil]
    cases lookupAssoc m k <;> simp [addCount]
  | cons v rest ih =>
    rw [List.foldl_cons, ih, lookupAssoc_bump]
    by_cases h : dateIso v.time = k
    · have hc : countOnDate (v :: rest) k = countOnDate rest k + 1 := by
        simp [countOnDate, List.filter_cons, h]
      rw [hc, if_pos h.symm]
      cases hlk : lookupAssoc m k with
      | none => simp [addCount]; omega
      | some v₀ => simp [addCount]; omega
    · have hc : countOnDate (v :: rest) k = countOnDate rest k := by
        simp [countOnDate, List.filter_cons, h]
      rw [hc, if_neg (fun hk => h hk.symm)]

theorem lookup_viewsPerDay (views : List ViewEvent) (k : String) :
    lookupAssoc (viewsPerDayOf views) k =
      if countOnDate views k = 0 then none else some (countOnDate views k) := by
  have h := lookupAssoc_foldl_bump views [] k
  simpa [viewsPerDayOf, lookupAssoc, addCount] using h

/-! ## C3 — the aggregation computes count, distinct count and per-day counts -/

/-- C3: for every event sequence, `total_views` is the sequence's length,
`unique_ips` the number of distinct client identities, and `views_per_day`
maps `k` to `n` exactly when `n` is the (positive) number of events whose
UTC ISO date is `k` — dates with no events have no key. -/
theorem computeSummary_spec (views : List ViewEvent) :
    (computeSummary views).total_views = views.length ∧
    (computeSummary views).unique_ips = (views.map ViewEvent.ip).toFinset.card ∧
    ∀ k n, lookupAssoc (computeSummary views).views_per_day k = some n ↔
      (n = countOnDate views k ∧ 0 < n) := by
  refine ⟨rfl, ?_, ?_⟩
  · simp [computeSummary, List.card_toFinset]
  · intro k n
    simp only [computeSummary]
    rw [lookup_viewsPerDay]
    by_cases h : countOnDate views k = 0
    · simp [h]
    · simp [h]
      constructor
      · rintro rfl
        exact ⟨rfl, Nat.pos_of_ne_zero h⟩
      · rintro ⟨rfl, _⟩
        rfl

/-! ## C6 — the aggregation is a pure, order-independent reduction -/

/-- C6: permuting the event sequence changes none of the three metrics (for
`views_per_day`, the mapping is unchanged key by key — Python dict equality
ignores insertion order), and recomputing on the same sequence is identical. -/
theorem computeSummary_order_independent (evs evs' : List ViewEvent)
    (hp : evs.Perm evs') :
    (computeSummary evs).total_views = (computeSummary evs').total_views ∧
    (computeSummary evs).unique_ips = (computeSummary evs').unique_ips ∧
    (∀ k, lookupAssoc (computeSummary evs).views_per_day k =
      lookupAssoc (computeSummary evs').views_per_day k) ∧
    computeSummary evs = computeSummary evs := by
  refine ⟨hp.length_eq, ?_, ?_, rfl⟩
  · exact ((hp.map ViewEvent.ip).dedup).length_eq
  · intro k
    simp only [computeSummary]
    rw [lookup_viewsPerDay, lookup_viewsPerDay]
    have hc : countOnDate evs k = countOnDate evs' k := by
      simp only [countOnDate]
      exact List.Perm.length_eq (List.Perm.filter _ hp)
    rw [hc]

/-- Witness for C6 at a concrete input: swapping two events from different
identities and days changes no metric. -/
theorem computeSummary_order_independent_witness :
    (computeSummary [⟨"a", 0⟩, ⟨"b", 90000⟩]).total_views =
      (computeSummary [⟨"b", 90000⟩, ⟨"a", 0⟩]).total_views ∧
    (computeSummary [⟨"a", 0⟩, ⟨"b", 90000⟩]).unique_ips =
      (computeSummary [⟨"b", 90000⟩, ⟨"a", 0⟩]).unique_ips ∧
    (∀ k, lookupAssoc (computeSummary [⟨"a", 0⟩, ⟨"b", 90000⟩]).views_per_day k =
      lookupAssoc (computeSummary [⟨"b", 90000⟩, ⟨"a", 0⟩]).views_per_day k) ∧
    computeSummary [⟨"a", 0⟩, ⟨"b", 90000⟩] = computeSummary [⟨"a", 0⟩, ⟨"b", 90000⟩] :=
  computeSummary_order_independent [⟨"a", 0⟩, ⟨"b", 90000⟩] [⟨"b", 90000⟩, ⟨"a", 0⟩]
    (List.Perm.swap (⟨"b", 90000⟩ : ViewEvent) (⟨"a", 0⟩ : ViewEvent) [])

/-! ## C9 — reads are effect-free on the log and the rate windows -/

/-- C9: `get_analytics` never returns 429, and it leaves every identity's
rate window and every resource's event log exactly as they were (only the
cache can change, on a miss). -/
theorem get_analytics_read_only (st : AppState) (m now : Nat) :
    (get_analytics st m now).1 ≠ Except.error ApiError.tooManyRequests ∧
    (get_analytics st m now).2.rate_limit_store = st.rate_limit_store ∧
    (get_analytics st m now).2.views_db = st.views_db := by
  unfold get_analytics analyticsMiss
  split
  · split
    · split
      · simp
      · split
        · simp
        · simp
    · simp
  · simp

/-! ## Round trip of the cache text, part 1: decimal rendering -/

theorem takeWhile_append_all {p : Char → Bool} (l r : List Char)
    (h : ∀ c ∈ l, p c = true) : (l ++ r).takeWhile p = l ++ r.takeWhile p := by
  induction l with
  | nil => simp
  | cons c cs ih =>
    have hc := h c (List.mem_cons_self c cs)
    simp [List.takeWhile_cons, hc, ih (fun x hx => h x (List.mem_cons_of_mem c hx))]

theorem dropWhile_append_all {p : Char → Bool} (l r : List Char)
    (h : ∀ c ∈ l, p c = true) : (l ++ r).dropWhile p = r.dropWhile p := by
  induction l with
  | nil => simp
  | cons c cs ih =>
    have hc := h c (List.mem_cons_self c cs)
    simp [List.dropWhile_cons, hc, ih (fun x hx => h x (List.mem_cons_of_mem c hx))]

theorem expectChars_append (pat l : List Char) : expectChars pat (pat ++ l) = some l := by
  induction pat with
  | nil => rfl
  | cons c cs ih => simp [expectChars, ih]

theorem isDigitC_digitChar (d : Nat) (h : d < 10) : isDigitC (digitChar d) = true := by
  interval_cases d <;> decide

theorem charVal_digitChar (d : Nat) (h : d < 10) : charVal (digitChar d) = d := by
  interval_cases d <;> decide

theorem natReprAux_zero (fuel : Nat) : natReprAux fuel 0 = [] := by
  cases fuel <;> simp [natReprAux]

theorem natReprAux_digits (fuel : Nat) :
    ∀ n, ∀ c ∈ natReprAux fuel n, isDigitC c = true := by
  induction fuel with
  | zero => simp [natReprAux]
  | succ fuel ih =>
    intro n c hc
    by_cases h0 : n = 0
    · simp [natReprAux, h0] at hc
    · simp only [natReprAux, if_neg h0] at hc
      rcases List.mem_append.mp hc with h | h
      · exact ih _ c h
      · simp at h
        subst h
        exact isDigitC_digitChar _ (Nat.mod_lt _ (by norm_num))

theorem natRepr_digits (n : Nat) : ∀ c ∈ natRepr n, isDigitC c = true := by
  intro c hc
  by_cases h0 : n = 0
  · simp [natRepr, h0] at hc
    subst hc
    decide
  · simp only [natRepr, if_neg h0] at hc
    exact natReprAux_digits _ _ c hc

theorem natRepr_ne_nil (n : Nat) : natRepr n ≠ [] := by
  by_cases h0 : n = 0
  · simp [natRepr, h0]
  · simp [natRepr, natReprAux, h0]

theorem valBE_append_single (l : List Char) (c : Char) :
    valBE (l ++ [c]) = valBE l * 10 + charVal c := by
  simp [valBE, List.foldl_append]

theorem valBE_natReprAux (fuel : Nat) :
    ∀ n, n ≠ 0 → n ≤ fuel → valBE (natReprAux fuel n) = n := by
  induction fuel with
  | zero => intro n h0 hf; omega
  | succ fuel ih =>
    intro n h0 hf
    simp only [natReprAux, if_neg h0]
    rw [valBE_append_single, charVal_digitChar _ (Nat.mod_lt _ (by norm_num))]
    by_cases h : n / 10 = 0
    · rw [h, natReprAux_zero]
      simp only [valBE, List.foldl_nil]
      omega
    · have hlt : n / 10 < n := Nat.div_lt_self (Nat.pos_of_ne_zero h0) (by norm_num)
      rw [ih _ h (by omega)]
      omega

theorem valBE_natRepr (n : Nat) : valBE (natRepr n) = n := by
  by_cases h0 : n = 0
  · subst h0; decide
  · simp only [natRepr, if_neg h0]
    exact valBE_natReprAux _ _ h0 (Nat.le_succ n)

theorem parseNat_natRepr (n : Nat) (rest : List Char) (h : noLeadingDigit rest = true) :
    parseNat (natRepr n ++ rest) = some (n, rest) := by
  have hall := natRepr_digits n
  have htw : (natRepr n ++ rest).takeWhile isDigitC = natRepr n := by
    rw [takeWhile_append_all _ _ hall]
    cases rest with
    | nil => simp
    | cons c cs =>
      have hc : isDigitC c = false := by
        simp [noLeadingDigit] at h
        exact h
      simp [List.takeWhile_cons, hc]
  have hdw : (natRepr n ++ rest).dropWhile isDigitC = rest := by
    rw [dropWhile_append_all _ _ hall]
    cases rest with
    | nil => rfl
    | cons c cs =>
      have hc : isDigitC c = false := by
        simp [noLeadingDigit] at h
        exact h
      simp [List.dropWhile_cons, hc]
  have hne : (natRepr n).isEmpty = false := by
    cases hnr : natRepr n with
    | nil => exact absurd hnr (natRepr_ne_nil n)
    | cons a l => rfl
  simp [parseNat, htw, hdw, hne, valBE_natRepr]

/-! ## Round trip of the cache text, part 2: keys, entries, dict literals -/

theorem expectChars_single (c : Char) (l : List Char) :
    expectChars [c] (c :: l) = some l := by
  simp [expectChars]

theorem expectChars_pair (a b : Char) (l : List Char) :
    expectChars [a, b] (a :: b :: l) = some l := by
  simp [expectChars]

theorem parseKey_qkey (k : String) (rest : List Char)
    (hk : ∀ c ∈ k.data, (!decide (c = quoteC)) = true) :
    parseKey (qkeyChars k ++ rest) = some (k, rest) := by
  have hshape : qkeyChars k ++ rest = quoteC :: (k.data ++ quoteC :: rest) := by
    simp [qkeyChars]
  have hdw : (k.data ++ quoteC :: rest).dropWhile (fun c => !(c = quoteC))
      = quoteC :: rest := by
    rw [dropWhile_append_all _ _ hk]
    simp [List.dropWhile_cons]
  have htw : (k.data ++ quoteC :: rest).takeWhile (fun c => !(c = quoteC)) = k.data := by
    rw [takeWhile_append_all _ _ hk]
    simp [List.takeWhile_cons]
  rw [hshape]
  simp [parseKey, hdw, htw]

theorem parseEntry_encode (e : String × Nat) (rest : List Char)
    (hk : ∀ c ∈ e.1.data, (!decide (c = quoteC)) = true)
    (hr : noLeadingDigit rest = true) :
    parseEntry (encodeEntryChars e ++ rest) = some (e, rest) := by
  obtain ⟨k, v⟩ := e
  have hshape : encodeEntryChars (k, v) ++ rest
      = qkeyChars k ++ (':' :: ' ' :: (natRepr v ++ rest)) := by
    simp [encodeEntryChars]
  rw [hshape]
  simp only [parseEntry]
  rw [parseKey_qkey _ _ hk]
  simp only [Option.some_bind]
  rw [expectChars_pair]
  simp only [Option.some_bind]
  rw [parseNat_natRepr _ _ hr]
  simp only [Option.some_bind]

/-- The text after an encoded entry inside a dict literal starts with `,`
or the closing brace, never a digit. -/
theorem noLeadingDigit_sepOrBrace (es : List (String × Nat)) (rest : List Char) :
    noLeadingDigit (encodeSepChars es ++ rbraceC :: rest) = true := by
  cases es with
  | nil => rfl
  | cons e es => rfl

theorem encodeSep_length_le (es : List (String × Nat)) :
    es.length ≤ (encodeSepChars es).length := by
  induction es with
  | nil => simp [encodeSepChars]
  | cons e es ih =>
    simp [encodeSepChars, List.length_append]
    omega

theorem parseEntriesRest_encode (es : List (String × Nat)) :
    ∀ (fuel : Nat) (acc : List (String × Nat)) (rest : List Char),
      es.length < fuel →
      (∀ e ∈ es, ∀ c ∈ e.1.data, (!decide (c = quoteC)) = true) →
      parseEntriesRest fuel acc (encodeSepChars es ++ rbraceC :: rest) =
        some (acc.reverse ++ es, rest) := by
  induction es with
  | nil =>
    intro fuel acc rest hf _
    match fuel, hf with
    | fuel + 1, _ =>
      show parseEntriesRest (fuel + 1) acc (rbraceC :: rest) = _
      simp [parseEntriesRest]
  | cons e es ih =>
    intro fuel acc rest hf hs
    match fuel, hf with
    | fuel + 1, hf =>
      have hshape : encodeSepChars (e :: es) ++ rbraceC :: rest
          = ',' :: ' ' :: (encodeEntryChars e ++ (encodeSepChars es ++ rbraceC :: rest)) := by
        simp [encodeSepChars]
      rw [hshape]
      show ((parseEntry (encodeEntryChars e ++ (encodeSepChars es ++ rbraceC :: rest))).bind
          fun pe => parseEntriesRest fuel (pe.1 :: acc) pe.2)
        = some (acc.reverse ++ e :: es, rest)
      rw [parseEntry_encode e _ (hs e (by simp)) (noLeadingDigit_sepOrBrace es rest)]
      simp only [Option.some_bind]
      rw [ih fuel (e :: acc) rest (by simpa using hf) (fun x hx => hs x (by simp [hx]))]
      simp

theorem parseDict_encode (d : List (String × Nat)) (rest : List Char)
    (hs : ∀ e ∈ d, ∀ c ∈ e.1.data, (!decide (c = quoteC)) = true) :
    parseDict (encodeDictChars d ++ rest) = some (d, rest) := by
  cases d with
  | nil =>
    show parseDict (lbraceC :: rbraceC :: rest) = some ([], rest)
    simp [parseDict, expectChars]
  | cons e es =>
    have hshape : encodeDictChars (e :: es) ++ rest
        = lbraceC :: (encodeEntryChars e ++ (encodeSepChars es ++ rbraceC :: rest)) := by
      simp [encodeDictChars]
    rw [hshape]
    show ((parseEntry (encodeEntryChars e ++ (encodeSepChars es ++ rbraceC :: rest))).bind
        fun pe => parseEntriesRest (pe.2.length + 1) [pe.1] pe.2)
      = some (e :: es, rest)
    rw [parseEntry_encode e _ (hs e (by simp)) (noLeadingDigit_sepOrBrace es rest)]
    simp only [Option.some_bind]
    rw [parseEntriesRest_encode es _ [e] rest
      (by have := encodeSep_length_le es; simp [List.length_append]; omega)
      (fun x hx => hs x (by simp [hx]))]
    simp

/-- Decoding the stored text recovers the stored summary, for any summary
whose `views_per_day` keys contain no quote character (as the date keys the
source generates never do): `eval(str(analytics)) == analytics`. -/
theorem decode_encode (s : Summary)
    (hs : ∀ e ∈ s.views_per_day, ∀ c ∈ e.1.data, (!decide (c = quoteC)) = true) :
    decodeSummary (encodeSummary s) = some s := by
  obtain ⟨tv, ui, d⟩ := s
  have hshape : (encodeSummary ⟨tv, ui, d⟩).data
      = lbraceC :: (encodeEntryChars ("total_views", tv)
          ++ (',' :: ' ' :: (encodeEntryChars ("unique_ips", ui)
          ++ (',' :: ' ' :: (qkeyChars "views_per_day"
          ++ (':' :: ' ' :: (encodeDictChars d ++ [rbraceC]))))))) := by
    simp [encodeSummary, encodeSummaryChars]
  simp only [decodeSummary]
  rw [hshape]
  simp only [decodeSummaryChars, expectChars_single, Option.some_bind]
  have hkT : ∀ c ∈ ("total_views" : String).data, (!decide (c = quoteC)) = true := by
    decide
  have hkU : ∀ c ∈ ("unique_ips" : String).data, (!decide (c = quoteC)) = true := by
    decide
  have hkP : ∀ c ∈ ("views_per_day" : String).data, (!decide (c = quoteC)) = true := by
    decide
  have h1 : parseEntry (encodeEntryChars ("total_views", tv)
      ++ (',' :: ' ' :: (encodeEntryChars ("unique_ips", ui)
      ++ (',' :: ' ' :: (qkeyChars "views_per_day"
      ++ (':' :: ' ' :: (encodeDictChars d ++ [rbraceC])))))))
      = some (("total_views", tv),
          ',' :: ' ' :: (encodeEntryChars ("unique_ips", ui)
          ++ (',' :: ' ' :: (qkeyChars "views_per_day"
          ++ (':' :: ' ' :: (encodeDictChars d ++ [rbraceC])))))) :=
    parseEntry_encode _ _ hkT rfl
  rw [h1]
  simp only [Option.some_bind, eq_self_iff_true, if_true]
  rw [expectChars_pair]
  simp only [Option.some_bind]
  have h2 : parseEntry (encodeEntryChars ("unique_ips", ui)
      ++ (',' :: ' ' :: (qkeyChars "views_per_day"
      ++ (':' :: ' ' :: (encodeDictChars d ++ [rbraceC])))))
      = some (("unique_ips", ui),
          ',' :: ' ' :: (qkeyChars "views_per_day"
          ++ (':' :: ' ' :: (encodeDictChars d ++ [rbraceC])))) :=
    parseEntry_encode _ _ hkU rfl
  rw [h2]
  simp only [Option.some_bind, eq_self_iff_true, if_true]
  rw [expectChars_pair]
  simp only [Option.some_bind]
  have h3 : parseKey (qkeyChars "views_per_day"
      ++ (':' :: ' ' :: (encodeDictChars d ++ [rbraceC])))
      = some ("views_per_day", ':' :: ' ' :: (encodeDictChars d ++ [rbraceC])) :=
    parseKey_qkey _ _ hkP
  rw [h3]
  simp only [Option.some_bind, eq_self_iff_true, if_true]
  rw [expectChars_pair]
  simp only [Option.some_bind]
  rw [parseDict_encode d [rbraceC] (by simpa using hs)]
  simp only [Option.some_bind]
  rw [expectChars_single]
  simp only [Option.some_bind, eq_self_iff_true, if_true]

/-! ## The generated summaries have quote-free keys, and encode non-emptily -/

theorem digit_ne_quote (c : Char) (h : isDigitC c = true) :
    (!decide (c = quoteC)) = true := by
  by_cases hc : c = quoteC
  · subst hc
    exact absurd h (by decide)
  · simp [hc]

theorem dateIso_chars (t : Nat) :
    ∀ c ∈ (dateIso t).data, (!decide (c = quoteC)) = true := by
  intro c hc
  rcases hcd : civilFromDays (t / 86400) with ⟨y, m, d⟩
  simp only [dateIso, hcd] at hc
  have hpad : ∀ (l : List Char) (w : Nat), (∀ x ∈ l, isDigitC x = true) →
      ∀ x ∈ padLeft l w, isDigitC x = true := by
    intro l w hl x hx
    rcases List.mem_append.mp hx with h1 | h1
    · rw [List.eq_of_mem_replicate h1]
      decide
    · exact hl x h1
  simp only [List.mem_append, List.mem_cons] at hc
  rcases hc with (h1 | rfl | h1) | rfl | h1
  · exact digit_ne_quote c (hpad _ _ (natRepr_digits y) c h1)
  · decide
  · exact digit_ne_quote c (hpad _ _ (natRepr_digits m) c h1)
  · decide
  · exact digit_ne_quote c (hpad _ _ (natRepr_digits d) c h1)

theorem bump_keys (P : String → Prop) (m : List (String × Nat)) (k : String)
    (hm : ∀ e ∈ m, P e.1) (hk : P k) : ∀ e ∈ bump m k, P e.1 := by
  induction m with
  | nil =>
    intro e he
    simp [bump] at he
    rw [he]
    exact hk
  | cons e0 rest ih =>
    obtain ⟨k', v⟩ := e0
    intro e he
    by_cases h : k' = k
    · simp [bump, h] at he
      rcases he with he | he
      · rw [he]
        exact hk
      · exact hm e (by simp [he])
    · simp [bump, h] at he
      rcases he with he | he
      · rw [he]
        exact hm (k', v) (by simp)
      · exact ih (fun x hx => hm x (by simp [hx])) e he

theorem foldl_bump_keys (views : List ViewEvent) :
    ∀ (m : List (String × Nat)),
      (∀ e ∈ m, ∀ c ∈ e.1.data, (!decide (c = quoteC)) = true) →
      ∀ e ∈ views.foldl (fun m v => bump m (dateIso v.time)) m,
        ∀ c ∈ e.1.data, (!decide (c = quoteC)) = true := by
  induction views with
  | nil =>
    intro m hm
    simpa using hm
  | cons v rest ih =>
    intro m hm
    simp only [List.foldl_cons]
    exact ih _ (bump_keys (fun s => ∀ c ∈ s.data, (!decide (c = quoteC)) = true)
      m (dateIso v.time) hm (dateIso_chars v.time))

theorem computeSummary_keys (views : List ViewEvent) :
    ∀ e ∈ (computeSummary views).views_per_day,
      ∀ c ∈ e.1.data, (!decide (c = quoteC)) = true := by
  exact foldl_bump_keys views [] (by simp)

theorem encodeSummary_ne_empty (s : Summary) : ¬encodeSummary s = "" := by
  intro h
  have hd := congrArg String.data h
  simp [encodeSummary, encodeSummaryChars] at hd

/-! ## Endpoint characterisations -/

/-- A successful `log_view` means the caller was admitted, the resource
exists, and the new state is exactly: event appended, window pruned-and-
appended, the resource's cache key deleted. -/
theorem log_view_ok (st : AppState) (m : Nat) (ip : String) (now : Nat)
    (h : (log_view st m ip now).1 = Except.ok ()) :
    st.media_db m = true ∧
    (log_view st m ip now).2.media_db = st.media_db ∧
    (log_view st m ip now).2.views_db =
      updFun st.views_db m (st.views_db m ++ [⟨ip, now⟩]) ∧
    (log_view st m ip now).2.rate_limit_store =
      updFun st.rate_limit_store ip (prune now (st.rate_limit_store ip) ++ [now]) ∧
    (log_view st m ip now).2.redis = redisDelete st.redis (cacheKey m) := by
  by_cases hadm : RATE_LIMIT ≤ (prune now (st.rate_limit_store ip)).length
  · exfalso
    simp [log_view, rate_limit, hadm] at h
  · by_cases hm : st.media_db m = true
    · refine ⟨hm, ?_, ?_, ?_, ?_⟩ <;>
        simp [log_view, rate_limit, hadm, hm]
    · exfalso
      simp [log_view, rate_limit, hadm, hm] at h

/-- `get_analytics` with the key absent (or holding the falsy empty string):
the cache-miss path, returning the fresh aggregate uncached and storing its
text for 60 seconds. -/
theorem get_analytics_miss (st : AppState) (m now : Nat)
    (hm : st.media_db m = true) (hc : redisGet st.redis (cacheKey m) now = none) :
    get_analytics st m now =
      (Except.ok (false, computeSummary (st.views_db m)),
        { st with redis := redisSetex st.redis (cacheKey m) 60 (encodeSummary (computeSummary (st.views_db m))) now }) := by
  simp [get_analytics, hm, hc, analyticsMiss]

/-- `get_analytics` with the key holding the encoding of a summary with
quote-free keys: the cache-hit path, returning the decoded summary cached. -/
theorem get_analytics_hit (st : AppState) (m now : Nat) (s : Summary)
    (hm : st.media_db m = true)
    (hc : redisGet st.redis (cacheKey m) now = some (encodeSummary s))
    (hs : ∀ e ∈ s.views_per_day, ∀ c ∈ e.1.data, (!decide (c = quoteC)) = true) :
    get_analytics st m now = (Except.ok (true, s), st) := by
  simp [get_analytics, hm, hc, encodeSummary_ne_empty s, decode_encode s hs]

/-- Conversely, an uncached (`cached = false`) result means the resource
exists, the summary is the aggregate of its events, and the new state stores
the summary's text under the resource's key for 60 seconds. -/
theorem get_analytics_false_inv (st : AppState) (m now : Nat) (s : Summary)
    (h : (get_analytics st m now).1 = Except.ok (false, s)) :
    st.media_db m = true ∧ s = computeSummary (st.views_db m) ∧
    (get_analytics st m now).2 = { st with redis := redisSetex st.redis (cacheKey m) 60 (encodeSummary s) now } := by
  by_cases hm : st.media_db m = true
  · refine ⟨hm, ?_⟩
    revert h
    unfold get_analytics analyticsMiss
    simp only [hm, if_true]
    split
    · split
      · intro h
        simp at h
        exact ⟨h.symm, by rw [h]⟩
      · split
        · intro h
          simp at h
        · intro h
          simp at h
    · intro h
      simp at h
      exact ⟨h.symm, by rw [h]⟩
  · exfalso
    simp [get_analytics, hm] at h

/-- The cache keys `f"analytics:{media_id}"` are distinct for distinct
resources: deleting or writing one resource's key cannot touch another's. -/
theorem cacheKey_injective (a b : Nat) (h : cacheKey a = cacheKey b) : a = b := by
  have hd : "analytics:".data ++ natRepr a = "analytics:".data ++ natRepr b :=
    congrArg String.data h
  have hr : natRepr a = natRepr b := List.append_cancel_left hd
  have hv := congrArg valBE hr
  rwa [valBE_natRepr, valBE_natRepr] at hv

/-! ## C5 — write-invalidate-read cache coherence -/

/-- C5: after a successful `log_view`, the next `get_analytics` recomputes
(the write deleted the key), returns the summary including the new event
with `cached = false`; an immediately following read before the 60-second
TTL elapses returns the same summary with `cached = true`. -/
theorem record_then_read_cache_coherence (st : AppState) (m : Nat) (ip : String)
    (now now₁ now₂ : Nat) (hw : now₂ < now₁ + 60)
    (hok : (log_view st m ip now).1 = Except.ok ()) :
    (get_analytics (log_view st m ip now).2 m now₁).1 =
      Except.ok (false, computeSummary (st.views_db m ++ [⟨ip, now⟩])) ∧
    (get_analytics (get_analytics (log_view st m ip now).2 m now₁).2 m now₂).1 =
      Except.ok (true, computeSummary (st.views_db m ++ [⟨ip, now⟩])) := by
  obtain ⟨hm, hmed, hviews, hrate, hredis⟩ := log_view_ok st m ip now hok
  have hm₁ : (log_view st m ip now).2.media_db m = true := by
    rw [hmed]; exact hm
  have hv₁ : (log_view st m ip now).2.views_db m = st.views_db m ++ [⟨ip, now⟩] := by
    rw [hviews]; simp
  have hc₁ : redisGet (log_view st m ip now).2.redis (cacheKey m) now₁ = none := by
    rw [hredis]; simp [redisGet, redisDelete, updFun]
  have h1 := get_analytics_miss _ m now₁ hm₁ hc₁
  have hsum : computeSummary ((log_view st m ip now).2.views_db m)
      = computeSummary (st.views_db m ++ [⟨ip, now⟩]) := by rw [hv₁]
  refine ⟨?_, ?_⟩
  · rw [h1]
    simp [hsum]
  · have hm₂ : (get_analytics (log_view st m ip now).2 m now₁).2.media_db m = true := by
      rw [h1]; exact hm₁
    have hc₂ : redisGet (get_analytics (log_view st m ip now).2 m now₁).2.redis
        (cacheKey m) now₂
        = some (encodeSummary (computeSummary ((log_view st m ip now).2.views_db m))) := by
      rw [h1]
      simp [redisGet, redisSetex, updFun, hw]
    have hkeys := computeSummary_keys ((log_view st m ip now).2.views_db m)
    have h2 := get_analytics_hit _ m now₂ _ hm₂ hc₂ hkeys
    rw [h2]
    simp [hsum]

/-- Witness for C5 at a concrete input: one media resource, one logged view,
then two reads 13 seconds apart. -/
theorem record_then_read_cache_coherence_witness :
    (get_analytics (log_view oneMediaState 1 "1.2.3.4" 5).2 1 7).1 =
      Except.ok (false, computeSummary (oneMediaState.views_db 1 ++ [⟨"1.2.3.4", 5⟩])) ∧
    (get_analytics (get_analytics (log_view oneMediaState 1 "1.2.3.4" 5).2 1 7).2 1 20).1 =
      Except.ok (true, computeSummary (oneMediaState.views_db 1 ++ [⟨"1.2.3.4", 5⟩])) :=
  record_then_read_cache_coherence oneMediaState 1 "1.2.3.4" 5 7 20 (by decide) (by decide)

/-! ## C7 — lazy TTL expiry -/

/-- C7: an entry stored by a cache miss at `now` with `ttlSeconds = 60` is
treated as absent by a `get` at `now + 61` or later even though it was never
invalidated, so `get_analytics` then recomputes and returns `cached = false`
with the same summary (no new events arrived in between). -/
theorem cache_ttl_expiry (st : AppState) (m now t : Nat) (s : Summary)
    (h1 : (get_analytics st m now).1 = Except.ok (false, s))
    (ht : now + 61 ≤ t) :
    redisGet (get_analytics st m now).2.redis (cacheKey m) t = none ∧
    (get_analytics (get_analytics st m now).2 m t).1 = Except.ok (false, s) := by
  obtain ⟨hm, hsum, hst⟩ := get_analytics_false_inv st m now s h1
  have hlt : ¬t < now + 60 := by omega
  have hc : redisGet (get_analytics st m now).2.redis (cacheKey m) t = none := by
    rw [hst]
    simp [redisGet, redisSetex, updFun, hlt]
  refine ⟨hc, ?_⟩
  have hm₂ : (get_analytics st m now).2.media_db m = true := by
    rw [hst]; exact hm
  have h2 := get_analytics_miss _ m t hm₂ hc
  rw [h2]
  have hv : (get_analytics st m now).2.views_db m = st.views_db m := by rw [hst]
  simp [hv, hsum]

/-- Witness for C7 at a concrete input: a read at 10 stores the summary; a
read at 71 finds the entry expired and recomputes. -/
theorem cache_ttl_expiry_witness :
    redisGet (get_analytics oneMediaState 1 10).2.redis (cacheKey 1) 71 = none ∧
    (get_analytics (get_analytics oneMediaState 1 10).2 1 71).1 =
      Except.ok (false, ⟨0, 0, []⟩) :=
  cache_ttl_expiry oneMediaState 1 10 71 ⟨0, 0, []⟩ (by decide) (by decide)

/-! ## C8 — the `str`/`eval` round trip through the cache -/

/-- C8: a cache hit after a miss returns exactly the summary the miss
stored: the hit's `eval` of the stored `str(analytics)` text recovers the
stored value (`decode_encode` is the underlying round trip). -/
theorem cache_hit_returns_stored (st : AppState) (m now t : Nat) (s s' : Summary)
    (h1 : (get_analytics st m now).1 = Except.ok (false, s))
    (h2 : (get_analytics (get_analytics st m now).2 m t).1 = Except.ok (true, s')) :
    s' = s := by
  obtain ⟨hm, hsum, hst⟩ := get_analytics_false_inv st m now s h1
  have hm₂ : (get_analytics st m now).2.media_db m = true := by
    rw [hst]; exact hm
  rcases Nat.lt_or_ge t (now + 60) with hlt | hge
  · have hc : redisGet (get_analytics st m now).2.redis (cacheKey m) t
        = some (encodeSummary s) := by
      rw [hst]
      simp [redisGet, redisSetex, updFun, hlt]
    have hkeys : ∀ e ∈ s.views_per_day, ∀ c ∈ e.1.data, (!decide (c = quoteC)) = true := by
      rw [hsum]
      exact computeSummary_keys _
    have h3 := get_analytics_hit _ m t s hm₂ hc hkeys
    rw [h3] at h2
    simp at h2
    exact h2.symm
  · have hlt' : ¬t < now + 60 := by omega
    have hc : redisGet (get_analytics st m now).2.redis (cacheKey m) t = none := by
      rw [hst]
      simp [redisGet, redisSetex, updFun, hlt']
    have h3 := get_analytics_miss _ m t hm₂ hc
    rw [h3] at h2
    simp at h2

/-- Witness for C8 at a concrete input: a miss at 10 then a hit at 10. -/
theorem cache_hit_returns_stored_witness : (⟨0, 0, []⟩ : Summary) = ⟨0, 0, []⟩ :=
  cache_hit_returns_stored oneMediaState 1 10 10 ⟨0, 0, []⟩ ⟨0, 0, []⟩
    (by decide) (by decide)

/-! ## C10 — the frame of a successful write -/

/-- C10: a successful `log_view(m, ip, now)` appends exactly the one event
`(ip, now)` to resource `m`'s log, removes exactly resource `m`'s cache key,
and makes identity `ip`'s window the pruned window plus the one timestamp
`now`; every other resource's log and cache entry and every other identity's
window are untouched. -/
theorem record_view_frame (st : AppState) (m : Nat) (ip : String) (now : Nat)
    (hok : (log_view st m ip now).1 = Except.ok ()) :
    (log_view st m ip now).2.views_db m = st.views_db m ++ [⟨ip, now⟩] ∧
    (log_view st m ip now).2.redis (cacheKey m) = none ∧
    (log_view st m ip now).2.rate_limit_store ip =
      prune now (st.rate_limit_store ip) ++ [now] ∧
    (∀ r, r ≠ m → (log_view st m ip now).2.views_db r = st.views_db r) ∧
    (∀ r, r ≠ m → (log_view st m ip now).2.redis (cacheKey r) = st.redis (cacheKey r)) ∧
    (∀ k, k ≠ cacheKey m → (log_view st m ip now).2.redis k = st.redis k) ∧
    (∀ c, c ≠ ip → (log_view st m ip now).2.rate_limit_store c = st.rate_limit_store c) := by
  obtain ⟨hm, hmed, hviews, hrate, hredis⟩ := log_view_ok st m ip now hok
  refine ⟨?_, ?_, ?_, ?_, ?_, ?_, ?_⟩
  · rw [hviews]; simp
  · rw [hredis]; simp [redisDelete]
  · rw [hrate]; simp
  · intro r hr
    rw [hviews]
    exact updFun_other _ _ _ _ hr
  · intro r hr
    rw [hredis]
    simp only [redisDelete]
    exact updFun_other _ _ _ _ (fun hc => hr (cacheKey_injective r m hc))
  · intro k hk
    rw [hredis]
    simp only [redisDelete]
    exact updFun_other _ _ _ _ hk
  · intro c hc
    rw [hrate]
    exact updFun_other _ _ _ _ hc

/-- Witness for C10 at a concrete input. -/
theorem record_view_frame_witness :
    (log_view oneMediaState 1 "1.2.3.4" 5).2.views_db 1 =
      oneMediaState.views_db 1 ++ [⟨"1.2.3.4", 5⟩] ∧
    (log_view oneMediaState 1 "1.2.3.4" 5).2.redis (cacheKey 1) = none ∧
    (log_view oneMediaState 1 "1.2.3.4" 5).2.rate_limit_store "1.2.3.4" =
      prune 5 (oneMediaState.rate_limit_store "1.2.3.4") ++ [5] ∧
    (∀ r, r ≠ 1 → (log_view oneMediaState 1 "1.2.3.4" 5).2.views_db r =
      oneMediaState.views_db r) ∧
    (∀ r, r ≠ 1 → (log_view oneMediaState 1 "1.2.3.4" 5).2.redis (cacheKey r) =
      oneMediaState.redis (cacheKey r)) ∧
    (∀ k, k ≠ cacheKey 1 → (log_view oneMediaState 1 "1.2.3.4" 5).2.redis k =
      oneMediaState.redis k) ∧
    (∀ c, c ≠ "1.2.3.4" → (log_view oneMediaState 1 "1.2.3.4" 5).2.rate_limit_store c =
      oneMediaState.rate_limit_store c) :=
  record_view_frame oneMediaState 1 "1.2.3.4" 5 (by decide)
